import Mathlib

/-!
Verification of the constrained self-avoiding random-walk generator
(2D variant in main.py, 3D variant in 3d.py).

The embedding models:
- the Python built-in round (round half to even) on exact
  rationals; all float computations in the source (k * 1.75, x / 2 for
  integer k) are exactly representable in binary floating point, so the
  rational model is exact;
- round(np.sqrt(n)) and round(np.cbrt(n)) through exact integer
  characterisations (no ties are possible at integer inputs, so the result
  does not depend on the tie-breaking rule, and a correctly-rounded float
  root yields the same rounded integer);
- the border list, the backtracking search, and the obstacle placement,
  translated from the source with randomness supplied by explicit
  state-threading parameters.
-/

set_option maxRecDepth 8000

/-- The Python built-in round of the exact rational a / b (b > 0 assumed):
round half to even.  f = a / b is the floor (Euclidean division), the
fractional part is (a % b) / b, and comparing it with 1/2 amounts to
comparing 2 * (a % b) with b.  Stated over integers so that it evaluates
by kernel reduction. -/
def pyRound (a b : ℤ) : ℤ :=
  if 2 * (a % b) < b then a / b
  else if b < 2 * (a % b) then a / b + 1
  else if (a / b) % 2 = 0 then a / b else a / b + 1

/-- Largest m ≤ k with P m, scanning downward (0 if none satisfies P). -/
def maxSat (P : ℕ → Bool) : ℕ → ℕ
  | 0 => 0
  | Nat.succ k => if P (k+1) then k+1 else maxSat P k

/-- Integer square root: largest s ≤ n with s^2 ≤ n. -/
def isqrt (n : ℕ) : ℕ := maxSat (fun k => k*k ≤ n) n

/-- Integer cube root: largest c ≤ n with c^3 ≤ n. -/
def icbrt (n : ℕ) : ℕ := maxSat (fun k => k*k*k ≤ n) n

/-- round(np.sqrt n): the nearest integer to the real square root of n.
For integer n the square root is never exactly halfway between two
integers, so this is independent of any tie-breaking rule. -/
def roundSqrt (n : ℕ) : ℕ :=
  let s := isqrt n
  if 4*n < (2*s+1)^2 then s else s + 1

/-- round(np.cbrt n): the nearest integer to the real cube root of n. -/
def roundCbrt (n : ℕ) : ℕ :=
  let c := icbrt n
  if 8*n < (2*c+1)^3 then c else c + 1

/-- The half side length computed inside border() in main.py:
length = round(np.sqrt(size)) * 1.75; h_length = round(length / 2).
With k = round(np.sqrt(size)), the float value length / 2 is exactly
7 * k / 8 (products of a small integer with 1.75 and halving are exact in
binary floating point), so h_length = round of the rational 7k/8. -/
def border_h (size : ℕ) : ℤ := pyRound (7 * (roundSqrt size : ℤ)) 8

/-- set_max in 3d.py: length = round(np.cbrt(size)) * 1.75;
h_length = round(length / 2), i.e. the rounded value of 7k/8 for
k = round(np.cbrt(size)). -/
def set_max (size : ℕ) : ℤ := pyRound (7 * (roundCbrt size : ℤ)) 8

/-- Modelled from the spec (section 4.1), not from the source: the full side
length L = round(sqrt(n) * 1.75), i.e. the nearest integer L to 7*sqrt(n)/4,
with a half tie rounded up.  L is characterised by
7*sqrt(n)/4 < L + 1/2, i.e. 49*n < (4*L+2)^2, L least such. -/
def specSideLength2 (n : ℕ) : ℕ :=
  maxSat (fun L => (4*L+2)^2 ≤ 49*n) (n+1) + 1

/-- Modelled from the spec (section 4.1), not from the source: the 2D
half-width H = round(L / 2) for L = round(sqrt(n) * 1.75). -/
def specHalfWidth2 (n : ℕ) : ℤ := pyRound (specSideLength2 n : ℤ) 2

lemma maxSat_sat (P : ℕ → Bool) (h0 : P 0 = true) :
    ∀ k, P (maxSat P k) = true := by
  intro k
  induction k with
  | zero => simpa [maxSat] using h0
  | succ k ih =>
    by_cases h : P (k+1) = true
    · simp [maxSat, h]
    · simp only [maxSat]
      rw [if_neg h]
      exact ih

lemma maxSat_last (P : ℕ → Bool) :
    ∀ k, maxSat P k = k ∨ P (maxSat P k + 1) = false := by
  intro k
  induction k with
  | zero => left; rfl
  | succ k ih =>
    by_cases h : P (k+1) = true
    · left; simp [maxSat, h]
    · simp only [maxSat]
      rw [if_neg h]
      rcases ih with h1 | h1
      · right
        rw [h1]
        exact Bool.not_eq_true _ ▸ (by simpa using h)
      · right; exact h1

lemma isqrt_le (n : ℕ) : isqrt n * isqrt n ≤ n := by
  have := maxSat_sat (fun k => k*k ≤ n) (by simp) n
  simpa [isqrt] using this

lemma lt_isqrt_succ (n : ℕ) : n < (isqrt n + 1) * (isqrt n + 1) := by
  rcases maxSat_last (fun k => k*k ≤ n) n with h | h
  · have h2 : isqrt n = n := by simpa [isqrt] using h
    rw [h2]; nlinarith
  · have h2 : ¬ ((isqrt n + 1) * (isqrt n + 1) ≤ n) := by
      simpa [isqrt] using h
    omega

lemma icbrt_le (n : ℕ) : icbrt n * icbrt n * icbrt n ≤ n := by
  have := maxSat_sat (fun k => k*k*k ≤ n) (by simp) n
  simpa [icbrt] using this

lemma lt_icbrt_succ (n : ℕ) : n < (icbrt n + 1) * (icbrt n + 1) * (icbrt n + 1) := by
  rcases maxSat_last (fun k => k*k*k ≤ n) n with h | h
  · have h2 : icbrt n = n := by simpa [icbrt] using h
    rw [h2]; nlinarith
  · have h2 : ¬ ((icbrt n + 1) * (icbrt n + 1) * (icbrt n + 1) ≤ n) := by
      simpa [icbrt] using h
    omega

lemma isqrt_pos (n : ℕ) (hn : 1 ≤ n) : 1 ≤ isqrt n := by
  by_contra h
  have h0 : isqrt n = 0 := by omega
  have := lt_isqrt_succ n
  rw [h0] at this
  omega

lemma icbrt_pos (n : ℕ) (hn : 1 ≤ n) : 1 ≤ icbrt n := by
  by_contra h
  have h0 : icbrt n = 0 := by omega
  have := lt_icbrt_succ n
  rw [h0] at this
  omega

/-- roundSqrt n is in the half-open interval of integers k with
(2k-1)^2 ≤ 4n < (2k+1)^2, i.e. k - 1/2 ≤ sqrt n < k + 1/2. -/
lemma roundSqrt_char (n : ℕ) (hn : 1 ≤ n) :
    1 ≤ roundSqrt n ∧ (2 * roundSqrt n - 1)^2 ≤ 4*n ∧ 4*n < (2 * roundSqrt n + 1)^2 := by
  have hle := isqrt_le n
  have hlt := lt_isqrt_succ n
  have hpos := isqrt_pos n hn
  unfold roundSqrt
  by_cases h : 4*n < (2 * isqrt n + 1)^2
  · rw [if_pos h]
    refine ⟨hpos, ?_, h⟩
    have : (2 * isqrt n - 1)^2 ≤ (2 * isqrt n)^2 := by
      apply Nat.pow_le_pow_left; omega
    calc (2 * isqrt n - 1)^2 ≤ (2 * isqrt n)^2 := this
      _ = 4 * (isqrt n * isqrt n) := by ring
      _ ≤ 4 * n := by omega
  · rw [if_neg h]
    refine ⟨by omega, ?_, ?_⟩
    · have harg : 2 * (isqrt n + 1) - 1 = 2 * isqrt n + 1 := by omega
      rw [harg]; omega
    · have h4 : 4*n < (2 * (isqrt n + 1))^2 := by nlinarith
      have : (2 * (isqrt n + 1))^2 ≤ (2 * (isqrt n + 1) + 1)^2 := by
        apply Nat.pow_le_pow_left; omega
      omega

/-- roundCbrt n is the integer m with (2m-1)^3 ≤ 8n < (2m+1)^3, i.e.
m - 1/2 ≤ cbrt n < m + 1/2. -/
lemma roundCbrt_char (n : ℕ) (hn : 1 ≤ n) :
    1 ≤ roundCbrt n ∧ (2 * roundCbrt n - 1)^3 ≤ 8*n ∧ 8*n < (2 * roundCbrt n + 1)^3 := by
  have hle := icbrt_le n
  have hlt := lt_icbrt_succ n
  have hpos := icbrt_pos n hn
  unfold roundCbrt
  by_cases h : 8*n < (2 * icbrt n + 1)^3
  · rw [if_pos h]
    refine ⟨hpos, ?_, h⟩
    have h1 : (2 * icbrt n - 1)^3 ≤ (2 * icbrt n)^3 := by
      apply Nat.pow_le_pow_left; omega
    calc (2 * icbrt n - 1)^3 ≤ (2 * icbrt n)^3 := h1
      _ = 8 * (icbrt n * icbrt n * icbrt n) := by ring
      _ ≤ 8 * n := by omega
  · rw [if_neg h]
    refine ⟨by omega, ?_, ?_⟩
    · have harg : 2 * (icbrt n + 1) - 1 = 2 * icbrt n + 1 := by omega
      rw [harg]; omega
    · have h4 : 8*n < (2 * (icbrt n + 1))^3 := by nlinarith
      have h5 : (2 * (icbrt n + 1))^3 ≤ (2 * (icbrt n + 1) + 1)^3 := by
        apply Nat.pow_le_pow_left; omega
      omega

/-- The interval characterisation determines the rounded root uniquely. -/
lemma roundSqrt_eq_of_char (n k : ℕ) (hk1 : 1 ≤ k)
    (hk2 : (2*k-1)^2 ≤ 4*n) (hk3 : 4*n < (2*k+1)^2) : roundSqrt n = k := by
  have hn : 1 ≤ n := by
    by_contra h
    have : n = 0 := by omega
    subst this
    have : (2*k-1)^2 = 0 := by omega
    have : 2*k-1 = 0 := by
      by_contra hne
      have : 1 ≤ (2*k-1)^2 := Nat.one_le_pow _ _ (by omega)
      omega
    omega
  obtain ⟨h1, h2, h3⟩ := roundSqrt_char n hn
  set r := roundSqrt n with hr
  rcases Nat.lt_trichotomy r k with h | h | h
  · exfalso
    have : 2*r+1 ≤ 2*k-1 := by omega
    have : (2*r+1)^2 ≤ (2*k-1)^2 := Nat.pow_le_pow_left this 2
    omega
  · exact h
  · exfalso
    have : 2*k+1 ≤ 2*r-1 := by omega
    have : (2*k+1)^2 ≤ (2*r-1)^2 := Nat.pow_le_pow_left this 2
    omega

lemma roundCbrt_eq_of_char (n m : ℕ) (hm1 : 1 ≤ m)
    (hm2 : (2*m-1)^3 ≤ 8*n) (hm3 : 8*n < (2*m+1)^3) : roundCbrt n = m := by
  have hn : 1 ≤ n := by
    by_contra h
    have : n = 0 := by omega
    subst this
    have h0 : (2*m-1)^3 = 0 := by omega
    have : 2*m-1 = 0 := by
      by_contra hne
      have : 1 ≤ (2*m-1)^3 := Nat.one_le_pow _ _ (by omega)
      omega
    omega
  obtain ⟨h1, h2, h3⟩ := roundCbrt_char n hn
  set r := roundCbrt n with hr
  rcases Nat.lt_trichotomy r m with h | h | h
  · exfalso
    have : 2*r+1 ≤ 2*m-1 := by omega
    have : (2*r+1)^3 ≤ (2*m-1)^3 := Nat.pow_le_pow_left this 3
    omega
  · exact h
  · exfalso
    have : 2*m+1 ≤ 2*r-1 := by omega
    have : (2*m+1)^3 ≤ (2*r-1)^3 := Nat.pow_le_pow_left this 3
    omega

/-- pyRound a b lies within half a unit of a/b: in integer form,
2a - b ≤ 2b * pyRound a b ≤ 2a + b (for b > 0). -/
lemma pyRound_bounds (a b : ℤ) (hb : 0 < b) :
    2*a - b ≤ 2*b*(pyRound a b) ∧ 2*b*(pyRound a b) ≤ 2*a + b := by
  have h1 : b * (a / b) + a % b = a := Int.ediv_add_emod a b
  have h2 : 0 ≤ a % b := Int.emod_nonneg a (ne_of_gt hb)
  have h3 : a % b < b := Int.emod_lt_of_pos a hb
  unfold pyRound
  split_ifs with hc1 hc2 hc3 <;> constructor <;> nlinarith

lemma pyRound_pos_of (a b : ℤ) (hb : 0 < b) (ha : b < 2*a) : 1 ≤ pyRound a b := by
  obtain ⟨h1, _⟩ := pyRound_bounds a b hb
  nlinarith [mul_pos hb (show (0:ℤ) < 2 by norm_num)]

example : isqrt 225 = 15 := by decide
example : roundSqrt 225 = 15 := by decide
example : icbrt 225 = 6 := by decide
example : roundCbrt 225 = 6 := by decide
example : pyRound 105 8 = 13 := by decide
example : border_h 225 = 13 := by decide
example : set_max 225 = 5 := by decide
example : border_h 30 = 4 := by decide
example : specSideLength2 30 = 10 := by decide
example : specHalfWidth2 30 = 5 := by decide
example : border_h 1 = 1 := by decide
example : set_max 1 = 1 := by decide

/-! ## Lattice points, Python ranges and the 2D border polyline -/

/-- A 2D lattice point. -/
abbrev Pt2 := ℤ × ℤ

/-- A 3D lattice point. -/
abbrev Pt3 := ℤ × ℤ × ℤ

/-- Python range(a, b+1): the integers from a to b, ascending. -/
def rangeAsc (a b : ℤ) : List ℤ :=
  (List.range (b + 1 - a).toNat).map (fun n : ℕ => a + (n : ℤ))

/-- Python range(a, b-1, -1): the integers from a down to b, descending. -/
def rangeDesc (a b : ℤ) : List ℤ :=
  (List.range (a + 1 - b).toNat).map (fun n : ℕ => a - (n : ℤ))

lemma mem_rangeAsc {a b x : ℤ} : x ∈ rangeAsc a b ↔ a ≤ x ∧ x ≤ b := by
  simp only [rangeAsc, List.mem_map, List.mem_range]
  constructor
  · rintro ⟨n, hn, rfl⟩; omega
  · rintro ⟨h1, h2⟩
    exact ⟨(x - a).toNat, by omega, by omega⟩

lemma mem_rangeDesc {a b x : ℤ} : x ∈ rangeDesc a b ↔ b ≤ x ∧ x ≤ a := by
  simp only [rangeDesc, List.mem_map, List.mem_range]
  constructor
  · rintro ⟨n, hn, rfl⟩; omega
  · rintro ⟨h1, h2⟩
    exact ⟨(a - x).toNat, by omega, by omega⟩

/-- The border polyline built by border() in main.py for half length h:
top side (x from -h to h at y = h), right side (y from h down to -h at
x = h), bottom side (x from h down to -h at y = -h), and left side
(y from -h to h at x = -h).  The code stores the xs and the ys as two
parallel lists; possible_steps transposes them into the point list
modelled here. -/
def borderPts (h : ℤ) : List Pt2 :=
  ((rangeAsc (-h) h).map (fun x => (x, h)))
    ++ ((rangeDesc h (-h)).map (fun y => (h, y)))
    ++ ((rangeDesc h (-h)).map (fun x => (x, -h)))
    ++ ((rangeAsc (-h) h).map (fun y => (-h, y)))

/-- border() in main.py: the polyline for the half length computed there. -/
def border (size : ℕ) : List Pt2 := borderPts (border_h size)

/-- Membership in the border list is exactly: on the square ring of
radius h. -/
lemma mem_borderPts {h px py : ℤ} :
    (px, py) ∈ borderPts h ↔
      ((py = h ∨ py = -h) ∧ -h ≤ px ∧ px ≤ h) ∨
      ((px = h ∨ px = -h) ∧ -h ≤ py ∧ py ≤ h) := by
  simp only [borderPts, List.mem_append, List.mem_map, mem_rangeAsc, mem_rangeDesc,
    Prod.mk.injEq]
  constructor
  · rintro (((⟨x, hx, hx1, hx2⟩ | ⟨y, hy, hy1, hy2⟩) | ⟨x, hx, hx1, hx2⟩) | ⟨y, hy, hy1, hy2⟩) <;>
      omega
  · rintro (⟨hy | hy, h1, h2⟩ | ⟨hx | hx, h1, h2⟩)
    · exact Or.inl (Or.inl (Or.inl ⟨px, ⟨h1, h2⟩, rfl, hy.symm⟩))
    · exact Or.inl (Or.inr ⟨px, ⟨h1, h2⟩, rfl, hy.symm⟩)
    · exact Or.inl (Or.inl (Or.inr ⟨py, ⟨h1, h2⟩, hx.symm, rfl⟩))
    · exact Or.inr ⟨py, ⟨h1, h2⟩, hx.symm, rfl⟩

/-! ## List access helpers -/

lemma getD_set_self {α : Type} (l : List α) (i : ℕ) (a d : α) (h : i < l.length) :
    (l.set i a).getD i d = a := by
  rw [List.getD_eq_getElem?_getD, List.getElem?_set_self h]
  rfl

lemma getD_set_ne {α : Type} (l : List α) {i j : ℕ} (a d : α) (h : i ≠ j) :
    (l.set i a).getD j d = l.getD j d := by
  rw [List.getD_eq_getElem?_getD, List.getElem?_set_ne h, ← List.getD_eq_getElem?_getD]

lemma getD_mem_of_lt {α : Type} (l : List α) (j : ℕ) (d : α) (h : j < l.length) :
    l.getD j d ∈ l := by
  rw [List.getD_eq_getElem?_getD, List.getElem?_eq_getElem h]
  exact List.getElem_mem h

lemma getD_ne_of_not_mem {α : Type} {l : List α} {t : α} (ht : t ∉ l) (j : ℕ) (d : α)
    (h : j < l.length) : l.getD j d ≠ t := by
  intro he
  exact ht (he ▸ getD_mem_of_lt l j d h)

lemma getD_replicate {α : Type} (n j : ℕ) (d : α) (hj : j < n) :
    (List.replicate n d).getD j d = d := by
  rw [List.getD_eq_getElem?_getD]
  rw [List.getElem?_eq_getElem (by simpa using hj)]
  simp [List.getElem_replicate]

/-! ## The backtracking walk search

The source threads randomness through np.random.shuffle.  The model takes
an abstract shuffler: a state type S and a function returning the reordered
candidate list together with the successor state.  Soundness theorems only
assume that every element of the output list is an element of the input
list, which holds for every permutation. -/

/-- The four candidate directions of possible_steps in main.py, in source
order: +y, -y, +x, -x. -/
def options2 : List Pt2 := [(0, 1), (0, -1), (1, 0), (-1, 0)]

/-- The six candidate directions of possible_steps in 3d.py, in source
order: +z, -z, +y, -y, +x, -x. -/
def options3 : List Pt3 :=
  [(0, 0, 1), (0, 0, -1), (0, 1, 0), (0, -1, 0), (1, 0, 0), (-1, 0, 0)]

/-- possible_steps of main.py: each direction added to the point at index i
of the buffer, kept when it is not anywhere in the buffer, not on the
border polyline and not on an obstacle cell; the kept list is then
shuffled. -/
def possible_steps2 {S : Type} (shuffle : S → List Pt2 → List Pt2 × S)
    (edges obs : List Pt2) (steps : List Pt2) (i : ℕ) (s : S) : List Pt2 × S :=
  let cur := steps.getD i (0, 0)
  let cands := (options2.map (fun j => (cur.1 + j.1, cur.2 + j.2))).filter
    (fun t => !(decide (t ∈ steps)) && !(decide (t ∈ edges)) && !(decide (t ∈ obs)))
  shuffle s cands

/-- possible_steps of 3d.py: as in 2D, but the border test is the strict
comparison abs(coordinate) < max_distance on every axis. -/
def possible_steps3 {S : Type} (shuffle : S → List Pt3 → List Pt3 × S)
    (mx : ℤ) (obs : List Pt3) (steps : List Pt3) (i : ℕ) (s : S) : List Pt3 × S :=
  let cur := steps.getD i (0, 0, 0)
  let cands := (options3.map
      (fun j => (cur.1 + j.1, cur.2.1 + j.2.1, cur.2.2 + j.2.2))).filter
    (fun t => !(decide (t ∈ steps)) &&
      (decide (|t.1| < mx) && decide (|t.2.1| < mx) && decide (|t.2.2| < mx)) &&
      !(decide (t ∈ obs)))
  shuffle s cands

/-- The candidate loop of avoid_walk: try each candidate in order with the
continuation f, returning the first successful result; the random state is
threaded through failed attempts, as the global random state is in the
source. -/
def tryCands {α S : Type} (f : α → S → Option (List α) × S) :
    List α → S → Option (List α) × S
  | [], s => (none, s)
  | c :: cs, s =>
    match f c s with
    | (some w, s1) => (some w, s1)
    | (none, s1) => tryCands f cs s1

/-- The two buffer updates done before each recursive call of avoid_walk:
temp_steps[:, i] = c, and, when i is not the last index, the placeholder
pre-seed temp_steps[:, i+1] = c. -/
def commit {α : Type} (steps : List α) (i : ℕ) (c : α) : List α :=
  if i < steps.length - 1 then (steps.set i c).set (i+1) c else steps.set i c

/-- avoid_walk of main.py.  The buffer steps plays the role of the
np.zeros((2, n)) array (a list of n points); i is the current index.  The
source recursion always increases i by 1 and stops at i = n, so running it
with fuel = n - i steps of recursion budget reproduces it exactly: the
fuel-exhausted branch (returning none) is unreachable from those calls.
On success the source returns the filled buffer; the dead-end signal False
is modelled as none. -/
def avoid_walk2 {S : Type} (shuffle : S → List Pt2 → List Pt2 × S)
    (edges obs : List Pt2) : ℕ → List Pt2 → ℕ → S → Option (List Pt2) × S
  | fuel, steps, i, s =>
    if i = steps.length then (some steps, s)
    else
      match fuel with
      | 0 => (none, s)
      | Nat.succ fuel =>
        let ps := possible_steps2 shuffle edges obs steps i s
        tryCands (fun c s1 =>
          avoid_walk2 shuffle edges obs fuel (commit steps i c) (i+1) s1) ps.1 ps.2

/-- avoid_walk of 3d.py; identical control flow, 3D legality test. -/
def avoid_walk3 {S : Type} (shuffle : S → List Pt3 → List Pt3 × S)
    (mx : ℤ) (obs : List Pt3) : ℕ → List Pt3 → ℕ → S → Option (List Pt3) × S
  | fuel, steps, i, s =>
    if i = steps.length then (some steps, s)
    else
      match fuel with
      | 0 => (none, s)
      | Nat.succ fuel =>
        let ps := possible_steps3 shuffle mx obs steps i s
        tryCands (fun c s1 =>
          avoid_walk3 shuffle mx obs fuel (commit steps i c) (i+1) s1) ps.1 ps.2

/-- The search as started by rand_avoid in main.py: an all-zero buffer of n
points, first decision at index 1.  The recursion depth from there is
exactly n - 1. -/
def searchWalk2 {S : Type} (shuffle : S → List Pt2 → List Pt2 × S)
    (edges obs : List Pt2) (n : ℕ) (s : S) : Option (List Pt2) × S :=
  avoid_walk2 shuffle edges obs (n - 1) (List.replicate n (0, 0)) 1 s

/-- The search as started by rand_avoid in 3d.py. -/
def searchWalk3 {S : Type} (shuffle : S → List Pt3 → List Pt3 × S)
    (mx : ℤ) (obs : List Pt3) (n : ℕ) (s : S) : Option (List Pt3) × S :=
  avoid_walk3 shuffle mx obs (n - 1) (List.replicate n (0, 0, 0)) 1 s

/-- The trivial shuffler, used to instantiate witnesses. -/
def idShuffle {α : Type} : Unit → List α → List α × Unit := fun s l => (l, s)

example : (searchWalk2 idShuffle (borderPts 2) [] 2 ()).1 = some [(0, 0), (0, 1)] := by decide
example : (searchWalk3 idShuffle 2 [] 2 ()).1 = some [(0, 0, 0), (0, 0, 1)] := by decide
example : (searchWalk2 idShuffle (borderPts 1) [] 50 ()).1 = none := by decide
example : (searchWalk3 idShuffle 1 [] 50 ()).1 = none := by decide

/-! ## Soundness invariant of the search -/

lemma commit_length {α : Type} (steps : List α) (i : ℕ) (c : α) :
    (commit steps i c).length = steps.length := by
  unfold commit
  split_ifs <;> simp [List.length_set]

lemma commit_getD_other {α : Type} (steps : List α) (i : ℕ) (c d : α) (j : ℕ)
    (h1 : j ≠ i) (h2 : j ≠ i + 1) : (commit steps i c).getD j d = steps.getD j d := by
  unfold commit
  split_ifs with h
  · rw [getD_set_ne _ c d (by omega), getD_set_ne _ c d (by omega)]
  · rw [getD_set_ne _ c d (by omega)]

lemma commit_getD_self {α : Type} (steps : List α) (i : ℕ) (c d : α)
    (hi : i < steps.length) : (commit steps i c).getD i d = c := by
  unfold commit
  split_ifs with h
  · rw [getD_set_ne _ c d (by omega)]
    exact getD_set_self steps i c d hi
  · exact getD_set_self steps i c d hi

lemma commit_getD_succ {α : Type} (steps : List α) (i : ℕ) (c d : α)
    (hi : i + 1 < steps.length) : (commit steps i c).getD (i+1) d = c := by
  unfold commit
  rw [if_pos (by omega)]
  exact getD_set_self (steps.set i c) (i+1) c d (by rw [List.length_set]; omega)

/-- If every candidate only ever succeeds with a P-walk, so does the
candidate loop. -/
lemma tryCands_sound {α S : Type} (f : α → S → Option (List α) × S)
    (P : List α → Prop) (cands : List α)
    (hf : ∀ c ∈ cands, ∀ s w s1, f c s = (some w, s1) → P w) :
    ∀ s w s1, tryCands f cands s = (some w, s1) → P w := by
  induction cands with
  | nil =>
    intro s w s1 h
    simp only [tryCands] at h
    have := congrArg Prod.fst h
    simp at this
  | cons c cs ih =>
    intro s w s1 h
    rw [tryCands] at h
    rcases hfc : f c s with ⟨o, s2⟩
    rw [hfc] at h
    cases o with
    | some w2 =>
      have hw : w2 = w := by
        have := congrArg Prod.fst h
        simpa using this
      subst hw
      exact hf c (List.mem_cons_self c cs) s w2 s2 hfc
    | none =>
      exact ih (fun c2 hc2 => hf c2 (List.mem_cons_of_mem c hc2)) s2 w s1 h

/-- One lattice step: the difference of consecutive points is one of the
four 2D unit directions. -/
def Step2 (p q : Pt2) : Prop := (q.1 - p.1, q.2 - p.2) ∈ options2

/-- The invariant of avoid_walk2 on entry with buffer steps and index i:
indices 0..i-1 are committed and form a legal prefix walk starting at the
origin, and (unless i is past the end) index i still holds the placeholder
copy of point i-1. -/
def Inv2 (edges obs : List Pt2) (steps : List Pt2) (i : ℕ) : Prop :=
  1 ≤ i ∧ i ≤ steps.length ∧
  steps.getD 0 (0, 0) = (0, 0) ∧
  (i < steps.length → steps.getD i (0, 0) = steps.getD (i-1) (0, 0)) ∧
  (∀ j, j + 1 < i → Step2 (steps.getD j (0, 0)) (steps.getD (j+1) (0, 0))) ∧
  (∀ j k, j < k → k < i → steps.getD j (0, 0) ≠ steps.getD k (0, 0)) ∧
  (∀ j, 1 ≤ j → j < i → steps.getD j (0, 0) ∉ edges ∧ steps.getD j (0, 0) ∉ obs)

lemma Inv2_commit (edges obs steps : List Pt2) (i : ℕ) (c : Pt2)
    (hinv : Inv2 edges obs steps i) (hi : i < steps.length)
    (hmem : c ∉ steps) (hedge : c ∉ edges) (hobs : c ∉ obs)
    (hstep : Step2 (steps.getD i (0, 0)) c) :
    Inv2 edges obs (commit steps i c) (i+1) := by
  obtain ⟨h1, h2, h3, h4, h5, h6, h7⟩ := hinv
  refine ⟨by omega, ?_, ?_, ?_, ?_, ?_, ?_⟩
  · rw [commit_length]; omega
  · rw [commit_getD_other steps i c (0,0) 0 (by omega) (by omega)]
    exact h3
  · intro hlt
    rw [commit_length] at hlt
    rw [commit_getD_succ steps i c (0,0) hlt]
    rw [Nat.add_sub_cancel]
    rw [commit_getD_self steps i c (0,0) hi]
  · intro j hj
    by_cases hji : j + 1 = i
    · have hjv : j = i - 1 := by omega
      rw [hji, commit_getD_self steps i c (0,0) hi]
      rw [commit_getD_other steps i c (0,0) j (by omega) (by omega)]
      have hcur := h4 hi
      rw [hjv, ← hcur]
      exact hstep
    · have hj2 : j + 1 < i := by omega
      rw [commit_getD_other steps i c (0,0) j (by omega) (by omega)]
      rw [commit_getD_other steps i c (0,0) (j+1) (by omega) (by omega)]
      exact h5 j hj2
  · intro j k hjk hk
    by_cases hki : k = i
    · subst hki
      rw [commit_getD_self steps k c (0,0) hi]
      rw [commit_getD_other steps k c (0,0) j (by omega) (by omega)]
      exact getD_ne_of_not_mem hmem j (0,0) (by omega)
    · have hk2 : k < i := by omega
      rw [commit_getD_other steps i c (0,0) j (by omega) (by omega)]
      rw [commit_getD_other steps i c (0,0) k (by omega) (by omega)]
      exact h6 j k hjk hk2
  · intro j hj1 hj2
    by_cases hji : j = i
    · subst hji
      rw [commit_getD_self steps j c (0,0) hi]
      exact ⟨hedge, hobs⟩
    · have hj3 : j < i := by omega
      rw [commit_getD_other steps i c (0,0) j (by omega) (by omega)]
      exact h7 j hj1 hj3

/-- Main soundness of avoid_walk2: any successful return satisfies the
invariant over its full length, with the buffer length preserved. -/
theorem avoid_walk2_sound {S : Type} (shuffle : S → List Pt2 → List Pt2 × S)
    (hsh : ∀ s l, ∀ x ∈ (shuffle s l).1, x ∈ l)
    (edges obs : List Pt2) :
    ∀ fuel (steps : List Pt2) (i : ℕ) (s : S) (w : List Pt2) (s1 : S),
      Inv2 edges obs steps i →
      avoid_walk2 shuffle edges obs fuel steps i s = (some w, s1) →
      w.length = steps.length ∧ Inv2 edges obs w w.length := by
  intro fuel
  induction fuel with
  | zero =>
    intro steps i s w s1 hinv h
    rw [avoid_walk2] at h
    by_cases hi : i = steps.length
    · rw [if_pos hi] at h
      have hw : steps = w := by
        have := congrArg Prod.fst h
        simpa using this
      subst hw
      exact ⟨rfl, hi ▸ hinv⟩
    · rw [if_neg hi] at h
      have := congrArg Prod.fst h
      simp at this
  | succ fuel ih =>
    intro steps i s w s1 hinv h
    rw [avoid_walk2] at h
    by_cases hi : i = steps.length
    · rw [if_pos hi] at h
      have hw : steps = w := by
        have := congrArg Prod.fst h
        simpa using this
      subst hw
      exact ⟨rfl, hi ▸ hinv⟩
    · rw [if_neg hi] at h
      have hilt : i < steps.length := by
        rcases hinv with ⟨_, h2, _⟩
        omega
      refine tryCands_sound _
        (fun wl => wl.length = steps.length ∧ Inv2 edges obs wl wl.length)
        _ ?_ _ w s1 h
      intro c hc s2 w2 s3 hcall
      have hc2 : c ∈ (options2.map
          (fun j => ((steps.getD i (0,0)).1 + j.1, (steps.getD i (0,0)).2 + j.2))).filter
          (fun t => !(decide (t ∈ steps)) && !(decide (t ∈ edges)) && !(decide (t ∈ obs))) := by
        apply hsh s _ c
        simpa [possible_steps2] using hc
      rw [List.mem_filter] at hc2
      obtain ⟨hmap, hpred⟩ := hc2
      have hnm : (c ∉ steps ∧ c ∉ edges) ∧ c ∉ obs := by
        simpa [Bool.and_eq_true, Bool.not_eq_true', decide_eq_false_iff_not] using hpred
      obtain ⟨dir, hdir, hcd⟩ := List.mem_map.mp hmap
      have hstep : Step2 (steps.getD i (0,0)) c := by
        unfold Step2
        rw [← hcd]
        have : ((steps.getD i (0,0)).1 + dir.1 - (steps.getD i (0,0)).1,
            (steps.getD i (0,0)).2 + dir.2 - (steps.getD i (0,0)).2) = dir := by
          apply Prod.ext <;> simp
        rw [this]
        exact hdir
      have hinv2 := Inv2_commit edges obs steps i c hinv hilt hnm.1.1 hnm.1.2 hnm.2 hstep
      obtain ⟨hlen, hres⟩ := ih (commit steps i c) (i+1) s2 w2 s3 hinv2 hcall
      rw [commit_length] at hlen
      exact ⟨hlen, hres⟩

/-- One lattice step in 3D: the difference of consecutive points is one of
the six unit directions. -/
def Step3 (p q : Pt3) : Prop :=
  (q.1 - p.1, q.2.1 - p.2.1, q.2.2 - p.2.2) ∈ options3

/-- The invariant of avoid_walk3, as in 2D; the committed points satisfy
the strict bound abs(coordinate) < mx on every axis instead of the border
list test. -/
def Inv3 (mx : ℤ) (obs : List Pt3) (steps : List Pt3) (i : ℕ) : Prop :=
  1 ≤ i ∧ i ≤ steps.length ∧
  steps.getD 0 (0, 0, 0) = (0, 0, 0) ∧
  (i < steps.length → steps.getD i (0, 0, 0) = steps.getD (i-1) (0, 0, 0)) ∧
  (∀ j, j + 1 < i → Step3 (steps.getD j (0, 0, 0)) (steps.getD (j+1) (0, 0, 0))) ∧
  (∀ j k, j < k → k < i → steps.getD j (0, 0, 0) ≠ steps.getD k (0, 0, 0)) ∧
  (∀ j, 1 ≤ j → j < i →
    (|(steps.getD j (0, 0, 0)).1| < mx ∧ |(steps.getD j (0, 0, 0)).2.1| < mx ∧
      |(steps.getD j (0, 0, 0)).2.2| < mx) ∧ steps.getD j (0, 0, 0) ∉ obs)

lemma Inv3_commit (mx : ℤ) (obs steps : List Pt3) (i : ℕ) (c : Pt3)
    (hinv : Inv3 mx obs steps i) (hi : i < steps.length)
    (hmem : c ∉ steps)
    (hbnd : |c.1| < mx ∧ |c.2.1| < mx ∧ |c.2.2| < mx) (hobs : c ∉ obs)
    (hstep : Step3 (steps.getD i (0, 0, 0)) c) :
    Inv3 mx obs (commit steps i c) (i+1) := by
  obtain ⟨h1, h2, h3, h4, h5, h6, h7⟩ := hinv
  refine ⟨by omega, ?_, ?_, ?_, ?_, ?_, ?_⟩
  · rw [commit_length]; omega
  · rw [commit_getD_other steps i c (0,0,0) 0 (by omega) (by omega)]
    exact h3
  · intro hlt
    rw [commit_length] at hlt
    rw [commit_getD_succ steps i c (0,0,0) hlt]
    rw [Nat.add_sub_cancel]
    rw [commit_getD_self steps i c (0,0,0) hi]
  · intro j hj
    by_cases hji : j + 1 = i
    · have hjv : j = i - 1 := by omega
      rw [hji, commit_getD_self steps i c (0,0,0) hi]
      rw [commit_getD_other steps i c (0,0,0) j (by omega) (by omega)]
      have hcur := h4 hi
      rw [hjv, ← hcur]
      exact hstep
    · have hj2 : j + 1 < i := by omega
      rw [commit_getD_other steps i c (0,0,0) j (by omega) (by omega)]
      rw [commit_getD_other steps i c (0,0,0) (j+1) (by omega) (by omega)]
      exact h5 j hj2
  · intro j k hjk hk
    by_cases hki : k = i
    · subst hki
      rw [commit_getD_self steps k c (0,0,0) hi]
      rw [commit_getD_other steps k c (0,0,0) j (by omega) (by omega)]
      exact getD_ne_of_not_mem hmem j (0,0,0) (by omega)
    · have hk2 : k < i := by omega
      rw [commit_getD_other steps i c (0,0,0) j (by omega) (by omega)]
      rw [commit_getD_other steps i c (0,0,0) k (by omega) (by omega)]
      exact h6 j k hjk hk2
  · intro j hj1 hj2
    by_cases hji : j = i
    · subst hji
      rw [commit_getD_self steps j c (0,0,0) hi]
      exact ⟨hbnd, hobs⟩
    · have hj3 : j < i := by omega
      rw [commit_getD_other steps i c (0,0,0) j (by omega) (by omega)]
      exact h7 j hj1 hj3

/-- Main soundness of avoid_walk3. -/
theorem avoid_walk3_sound {S : Type} (shuffle : S → List Pt3 → List Pt3 × S)
    (hsh : ∀ s l, ∀ x ∈ (shuffle s l).1, x ∈ l)
    (mx : ℤ) (obs : List Pt3) :
    ∀ fuel (steps : List Pt3) (i : ℕ) (s : S) (w : List Pt3) (s1 : S),
      Inv3 mx obs steps i →
      avoid_walk3 shuffle mx obs fuel steps i s = (some w, s1) →
      w.length = steps.length ∧ Inv3 mx obs w w.length := by
  intro fuel
  induction fuel with
  | zero =>
    intro steps i s w s1 hinv h
    rw [avoid_walk3] at h
    by_cases hi : i = steps.length
    · rw [if_pos hi] at h
      have hw : steps = w := by
        have := congrArg Prod.fst h
        simpa using this
      subst hw
      exact ⟨rfl, hi ▸ hinv⟩
    · rw [if_neg hi] at h
      have := congrArg Prod.fst h
      simp at this
  | succ fuel ih =>
    intro steps i s w s1 hinv h
    rw [avoid_walk3] at h
    by_cases hi : i = steps.length
    · rw [if_pos hi] at h
      have hw : steps = w := by
        have := congrArg Prod.fst h
        simpa using this
      subst hw
      exact ⟨rfl, hi ▸ hinv⟩
    · rw [if_neg hi] at h
      have hilt : i < steps.length := by
        rcases hinv with ⟨_, h2, _⟩
        omega
      refine tryCands_sound _
        (fun wl => wl.length = steps.length ∧ Inv3 mx obs wl wl.length)
        _ ?_ _ w s1 h
      intro c hc s2 w2 s3 hcall
      have hc2 : c ∈ (options3.map
          (fun j => ((steps.getD i (0,0,0)).1 + j.1, (steps.getD i (0,0,0)).2.1 + j.2.1,
            (steps.getD i (0,0,0)).2.2 + j.2.2))).filter
          (fun t => !(decide (t ∈ steps)) &&
            (decide (|t.1| < mx) && decide (|t.2.1| < mx) && decide (|t.2.2| < mx)) &&
            !(decide (t ∈ obs))) := by
        apply hsh s _ c
        simpa [possible_steps3] using hc
      rw [List.mem_filter] at hc2
      obtain ⟨hmap, hpred⟩ := hc2
      simp only [Bool.and_eq_true, Bool.not_eq_true', decide_eq_false_iff_not,
        decide_eq_true_eq] at hpred
      obtain ⟨⟨hmemS, ⟨hb1, hb2⟩, hb3⟩, hobsS⟩ := hpred
      obtain ⟨dir, hdir, hcd⟩ := List.mem_map.mp hmap
      have hstep : Step3 (steps.getD i (0,0,0)) c := by
        unfold Step3
        rw [← hcd]
        have harg : ((steps.getD i (0,0,0)).1 + dir.1 - (steps.getD i (0,0,0)).1,
            (steps.getD i (0,0,0)).2.1 + dir.2.1 - (steps.getD i (0,0,0)).2.1,
            (steps.getD i (0,0,0)).2.2 + dir.2.2 - (steps.getD i (0,0,0)).2.2) = dir := by
          apply Prod.ext
          · simp
          · apply Prod.ext <;> simp
        rw [harg]
        exact hdir
      have hinv2 := Inv3_commit mx obs steps i c hinv hilt hmemS ⟨hb1, hb2, hb3⟩ hobsS hstep
      obtain ⟨hlen, hres⟩ := ih (commit steps i c) (i+1) s2 w2 s3 hinv2 hcall
      rw [commit_length] at hlen
      exact ⟨hlen, hres⟩

/-- The initial buffer of rand_avoid: all zeros, first decision at index 1. -/
lemma Inv2_init (edges obs : List Pt2) (n : ℕ) (hn : 1 ≤ n) :
    Inv2 edges obs (List.replicate n (0, 0)) 1 := by
  refine ⟨le_refl 1, by simpa using hn, ?_, ?_, ?_, ?_, ?_⟩
  · exact getD_replicate n 0 (0,0) (by omega)
  · intro hlt
    rw [List.length_replicate] at hlt
    rw [getD_replicate n 1 (0,0) hlt, getD_replicate n 0 (0,0) (by omega)]
  · intro j hj
    exact absurd hj (by omega)
  · intro j k hjk hk
    exfalso; omega
  · intro j hj1 hj2
    exfalso; omega

lemma Inv3_init (mx : ℤ) (obs : List Pt3) (n : ℕ) (hn : 1 ≤ n) :
    Inv3 mx obs (List.replicate n (0, 0, 0)) 1 := by
  refine ⟨le_refl 1, by simpa using hn, ?_, ?_, ?_, ?_, ?_⟩
  · exact getD_replicate n 0 (0,0,0) (by omega)
  · intro hlt
    rw [List.length_replicate] at hlt
    rw [getD_replicate n 1 (0,0,0) hlt, getD_replicate n 0 (0,0,0) (by omega)]
  · intro j hj
    exact absurd hj (by omega)
  · intro j k hjk hk
    exfalso; omega
  · intro j hj1 hj2
    exfalso; omega

/-- Soundness of the whole 2D search run. -/
theorem searchWalk2_sound {S : Type} (shuffle : S → List Pt2 → List Pt2 × S)
    (hsh : ∀ s l, ∀ x ∈ (shuffle s l).1, x ∈ l)
    (edges obs : List Pt2) (n : ℕ) (hn : 1 ≤ n) (s : S) (w : List Pt2) (s1 : S)
    (h : searchWalk2 shuffle edges obs n s = (some w, s1)) :
    w.length = n ∧ Inv2 edges obs w w.length := by
  unfold searchWalk2 at h
  obtain ⟨hl, hi⟩ := avoid_walk2_sound shuffle hsh edges obs (n-1)
    (List.replicate n (0,0)) 1 s w s1 (Inv2_init edges obs n hn) h
  rw [List.length_replicate] at hl
  exact ⟨hl, hi⟩

/-- Soundness of the whole 3D search run. -/
theorem searchWalk3_sound {S : Type} (shuffle : S → List Pt3 → List Pt3 × S)
    (hsh : ∀ s l, ∀ x ∈ (shuffle s l).1, x ∈ l)
    (mx : ℤ) (obs : List Pt3) (n : ℕ) (hn : 1 ≤ n) (s : S) (w : List Pt3) (s1 : S)
    (h : searchWalk3 shuffle mx obs n s = (some w, s1)) :
    w.length = n ∧ Inv3 mx obs w w.length := by
  unfold searchWalk3 at h
  obtain ⟨hl, hi⟩ := avoid_walk3_sound shuffle hsh mx obs (n-1)
    (List.replicate n (0,0,0)) 1 s w s1 (Inv3_init mx obs n hn) h
  rw [List.length_replicate] at hl
  exact ⟨hl, hi⟩

/-- A walk that starts at the origin, moves by unit steps and never lands
on the border polyline stays strictly inside the square of half width h:
crossing out of the open square would have to land on the ring first. -/
lemma walk2_inside (h : ℤ) (hh : 1 ≤ h) (obs : List Pt2) (w : List Pt2)
    (hinv : Inv2 (borderPts h) obs w w.length) :
    ∀ j, j < w.length → |(w.getD j (0, 0)).1| < h ∧ |(w.getD j (0, 0)).2| < h := by
  obtain ⟨h1, h2, h3, h4, h5, h6, h7⟩ := hinv
  intro j
  induction j with
  | zero =>
    intro _
    rw [h3]
    constructor <;> simpa using hh
  | succ j ih =>
    intro hj
    obtain ⟨ih1, ih2⟩ := ih (by omega)
    have hstep := h5 j hj
    have hedge := (h7 (j+1) (by omega) hj).1
    rw [Step2] at hstep
    simp only [options2, List.mem_cons, List.mem_singleton, Prod.mk.injEq,
      List.not_mem_nil, or_false] at hstep
    have hq : ¬ ((((w.getD (j+1) (0,0)).2 = h ∨ (w.getD (j+1) (0,0)).2 = -h) ∧
        -h ≤ (w.getD (j+1) (0,0)).1 ∧ (w.getD (j+1) (0,0)).1 ≤ h) ∨
        (((w.getD (j+1) (0,0)).1 = h ∨ (w.getD (j+1) (0,0)).1 = -h) ∧
        -h ≤ (w.getD (j+1) (0,0)).2 ∧ (w.getD (j+1) (0,0)).2 ≤ h)) := by
      intro hmem
      exact hedge (mem_borderPts.mpr hmem)
    rw [abs_lt] at ih1 ih2
    refine ⟨abs_lt.mpr (by omega), abs_lt.mpr (by omega)⟩

/-- A unit step moves exactly one unit along exactly one axis (2D). -/
lemma step2_abs (p q : Pt2) (hs : Step2 p q) :
    |q.1 - p.1| + |q.2 - p.2| = 1 := by
  simp only [Step2, options2, List.mem_cons, List.mem_singleton, Prod.mk.injEq,
    List.not_mem_nil, or_false] at hs
  rcases hs with ⟨e1, e2⟩ | ⟨e1, e2⟩ | ⟨e1, e2⟩ | ⟨e1, e2⟩ <;> rw [e1, e2] <;> decide

/-- A unit step moves exactly one unit along exactly one axis (3D). -/
lemma step3_abs (p q : Pt3) (hs : Step3 p q) :
    |q.1 - p.1| + |q.2.1 - p.2.1| + |q.2.2 - p.2.2| = 1 := by
  simp only [Step3, options3, List.mem_cons, List.mem_singleton, Prod.mk.injEq,
    List.not_mem_nil, or_false] at hs
  rcases hs with ⟨e1, e2, e3⟩ | ⟨e1, e2, e3⟩ | ⟨e1, e2, e3⟩ | ⟨e1, e2, e3⟩ |
    ⟨e1, e2, e3⟩ | ⟨e1, e2, e3⟩ <;> rw [e1, e2, e3] <;> decide

/-! ## Obstacle placement

random.randint is modelled abstractly: a state-threaded sampler that
returns none exactly when Python raises ValueError (empty range); theorems
about the sampled values take the range contract as a hypothesis.  The
unbounded resampling recursion of random_obstacle_placement is given an
explicit retry budget; exhausting it yields the distinguished fuelOut
signal, so an ok result or a valueError is always a faithful outcome of
the source. -/

/-- Failure signals of the obstacle placement model. -/
inductive PErr where
  | valueError : PErr
  | fuelOut : PErr
deriving DecidableEq

/-- random_obstacle_placement of main.py: limit = -border[0][0] (the half
length h, the first x value of the border being -h); each coordinate is
drawn from randint(-limit, limit - 4); a draw whose coordinates all lie in
[-4, 0] blocks the origin and is resampled. -/
def random_obstacle_placement2 {S : Type} (randint : S → ℤ → ℤ → Option (ℤ × S))
    (limit : ℤ) : ℕ → S → Except PErr (Pt2 × S)
  | 0, _ => .error .fuelOut
  | Nat.succ fuel, s =>
    match randint s (-limit) (limit - 4) with
    | none => .error .valueError
    | some (x, s1) =>
      match randint s1 (-limit) (limit - 4) with
      | none => .error .valueError
      | some (y, s2) =>
        if (0 ≥ x ∧ x ≥ -4) ∧ (0 ≥ y ∧ y ≥ -4) then
          random_obstacle_placement2 randint limit fuel s2
        else .ok ((x, y), s2)

/-- random_obstacle_placement of 3d.py: three draws, same rejection rule
on all three coordinates. -/
def random_obstacle_placement3 {S : Type} (randint : S → ℤ → ℤ → Option (ℤ × S))
    (limit : ℤ) : ℕ → S → Except PErr (Pt3 × S)
  | 0, _ => .error .fuelOut
  | Nat.succ fuel, s =>
    match randint s (-limit) (limit - 4) with
    | none => .error .valueError
    | some (x, s1) =>
      match randint s1 (-limit) (limit - 4) with
      | none => .error .valueError
      | some (y, s2) =>
        match randint s2 (-limit) (limit - 4) with
        | none => .error .valueError
        | some (z, s3) =>
          if (0 ≥ x ∧ x ≥ -4) ∧ (0 ≥ y ∧ y ≥ -4) ∧ (0 ≥ z ∧ z ≥ -4) then
            random_obstacle_placement3 randint limit fuel s3
          else .ok ((x, y, z), s3)

/-- The 16 cells of a 4x4 obstacle anchored at o, as enumerated by the
double loop of generate_obstacles in main.py. -/
def obstacle_cells2 (o : Pt2) : List Pt2 :=
  (List.range 4).flatMap (fun j : ℕ =>
    (List.range 4).map (fun k : ℕ => (o.1 + (j:ℤ), o.2 + (k:ℤ))))

/-- The 64 cells of a 4x4x4 obstacle anchored at o (3d.py). -/
def obstacle_cells3 (o : Pt3) : List Pt3 :=
  (List.range 4).flatMap (fun j : ℕ => (List.range 4).flatMap (fun k : ℕ =>
    (List.range 4).map (fun l : ℕ => (o.1 + (j:ℤ), o.2.1 + (k:ℤ), o.2.2 + (l:ℤ)))))

/-- generate_obstacles of main.py: n placements in sequence, collecting the
accepted anchors (the per-obstacle occupied cells are materialised from
each anchor by obstacle_cells2, and obs_points2 flattens them). -/
def generate_obstacles2 {S : Type} (randint : S → ℤ → ℤ → Option (ℤ × S))
    (limit : ℤ) (pfuel : ℕ) : ℕ → S → Except PErr (List Pt2 × S)
  | 0, s => .ok ([], s)
  | Nat.succ n, s =>
    match random_obstacle_placement2 randint limit pfuel s with
    | .error e => .error e
    | .ok (o, s1) =>
      match generate_obstacles2 randint limit pfuel n s1 with
      | .error e => .error e
      | .ok (os, s2) => .ok (o :: os, s2)

/-- generate_obstacles of 3d.py. -/
def generate_obstacles3 {S : Type} (randint : S → ℤ → ℤ → Option (ℤ × S))
    (limit : ℤ) (pfuel : ℕ) : ℕ → S → Except PErr (List Pt3 × S)
  | 0, s => .ok ([], s)
  | Nat.succ n, s =>
    match random_obstacle_placement3 randint limit pfuel s with
    | .error e => .error e
    | .ok (o, s1) =>
      match generate_obstacles3 randint limit pfuel n s1 with
      | .error e => .error e
      | .ok (os, s2) => .ok (o :: os, s2)

/-- self.obs_points: the flattened occupied-cell list of all obstacles. -/
def obs_points2 (origins : List Pt2) : List Pt2 := origins.flatMap obstacle_cells2

/-- self.obs_points of 3d.py. -/
def obs_points3 (origins : List Pt3) : List Pt3 := origins.flatMap obstacle_cells3

/-- rand_avoid of main.py for a RandomWalk(size) run: compute the border
for the bound, place 3 obstacles (propagating a placement error, as the
Python exception propagates out of __init__), then run the search on the
all-zero buffer. -/
def rand_avoid2 {S : Type} (shuffle : S → List Pt2 → List Pt2 × S)
    (randint : S → ℤ → ℤ → Option (ℤ × S)) (size : ℕ) (pfuel : ℕ) (s : S) :
    Except PErr (Option (List Pt2) × S) :=
  match generate_obstacles2 randint (border_h size) pfuel 3 s with
  | .error e => .error e
  | .ok (origins, s1) =>
    .ok (avoid_walk2 shuffle (border size) (obs_points2 origins) (size - 1)
      (List.replicate size (0, 0)) 1 s1)

/-- A sampler for witnesses: return the lower end of a nonempty range,
fail on an empty one, exactly as random.randint validates its range. -/
def loRandint : Unit → ℤ → ℤ → Option (ℤ × Unit) :=
  fun s lo hi => if lo ≤ hi then some (lo, s) else none

/-- Any anchor accepted by the 2D placement fails the blocking test. -/
lemma placement2_accepted {S : Type} (randint : S → ℤ → ℤ → Option (ℤ × S))
    (limit : ℤ) : ∀ fuel (s : S) (o : Pt2) (s1 : S),
    random_obstacle_placement2 randint limit fuel s = .ok (o, s1) →
    ¬ ((0 ≥ o.1 ∧ o.1 ≥ -4) ∧ (0 ≥ o.2 ∧ o.2 ≥ -4)) := by
  intro fuel
  induction fuel with
  | zero =>
    intro s o s1 h
    simp [random_obstacle_placement2] at h
  | succ fuel ih =>
    intro s o s1 h
    rw [random_obstacle_placement2] at h
    split at h
    · simp at h
    · rename_i x s2 heq1
      split at h
      · simp at h
      · rename_i y s3 heq2
        split at h
        · exact ih s3 o s1 h
        · rename_i hblock
          have ho : (x, y) = o := by
            simp only [Except.ok.injEq, Prod.mk.injEq] at h
            exact h.1
          rw [← ho]
          exact hblock

/-- Any anchor accepted by the 3D placement fails the blocking test. -/
lemma placement3_accepted {S : Type} (randint : S → ℤ → ℤ → Option (ℤ × S))
    (limit : ℤ) : ∀ fuel (s : S) (o : Pt3) (s1 : S),
    random_obstacle_placement3 randint limit fuel s = .ok (o, s1) →
    ¬ ((0 ≥ o.1 ∧ o.1 ≥ -4) ∧ (0 ≥ o.2.1 ∧ o.2.1 ≥ -4) ∧ (0 ≥ o.2.2 ∧ o.2.2 ≥ -4)) := by
  intro fuel
  induction fuel with
  | zero =>
    intro s o s1 h
    simp [random_obstacle_placement3] at h
  | succ fuel ih =>
    intro s o s1 h
    rw [random_obstacle_placement3] at h
    split at h
    · simp at h
    · rename_i x s2 heq1
      split at h
      · simp at h
      · rename_i y s3 heq2
        split at h
        · simp at h
        · rename_i z s4 heq3
          split at h
          · exact ih s4 o s1 h
          · rename_i hblock
            have ho : (x, y, z) = o := by
              simp only [Except.ok.injEq, Prod.mk.injEq] at h
              exact h.1
            rw [← ho]
            exact hblock

/-- Every anchor collected by generate_obstacles2 was accepted. -/
lemma generate2_accepted {S : Type} (randint : S → ℤ → ℤ → Option (ℤ × S))
    (limit : ℤ) (pfuel : ℕ) : ∀ count (s : S) (os : List Pt2) (s1 : S),
    generate_obstacles2 randint limit pfuel count s = .ok (os, s1) →
    ∀ o ∈ os, ¬ ((0 ≥ o.1 ∧ o.1 ≥ -4) ∧ (0 ≥ o.2 ∧ o.2 ≥ -4)) := by
  intro count
  induction count with
  | zero =>
    intro s os s1 h o ho
    have hos : os = [] := by
      simp only [generate_obstacles2, Except.ok.injEq, Prod.mk.injEq] at h
      exact h.1.symm
    rw [hos] at ho
    simp at ho
  | succ count ih =>
    intro s os s1 h o ho
    rw [generate_obstacles2] at h
    split at h
    · simp at h
    · rename_i o1 s2 hp
      split at h
      · simp at h
      · rename_i os2 s3 hg
        simp only [Except.ok.injEq, Prod.mk.injEq] at h
        have hos : o1 :: os2 = os := h.1
        rw [← hos] at ho
        rcases List.mem_cons.mp ho with rfl | hmem
        · exact placement2_accepted randint limit pfuel s o s2 hp
        · exact ih s2 os2 s3 hg o hmem

/-- Every anchor collected by generate_obstacles3 was accepted. -/
lemma generate3_accepted {S : Type} (randint : S → ℤ → ℤ → Option (ℤ × S))
    (limit : ℤ) (pfuel : ℕ) : ∀ count (s : S) (os : List Pt3) (s1 : S),
    generate_obstacles3 randint limit pfuel count s = .ok (os, s1) →
    ∀ o ∈ os, ¬ ((0 ≥ o.1 ∧ o.1 ≥ -4) ∧ (0 ≥ o.2.1 ∧ o.2.1 ≥ -4) ∧ (0 ≥ o.2.2 ∧ o.2.2 ≥ -4)) := by
  intro count
  induction count with
  | zero =>
    intro s os s1 h o ho
    have hos : os = [] := by
      simp only [generate_obstacles3, Except.ok.injEq, Prod.mk.injEq] at h
      exact h.1.symm
    rw [hos] at ho
    simp at ho
  | succ count ih =>
    intro s os s1 h o ho
    rw [generate_obstacles3] at h
    split at h
    · simp at h
    · rename_i o1 s2 hp
      split at h
      · simp at h
      · rename_i os2 s3 hg
        simp only [Except.ok.injEq, Prod.mk.injEq] at h
        have hos : o1 :: os2 = os := h.1
        rw [← hos] at ho
        rcases List.mem_cons.mp ho with rfl | hmem
        · exact placement3_accepted randint limit pfuel s o s2 hp
        · exact ih s2 os2 s3 hg o hmem

/-- A 4x4 obstacle covers the origin cell exactly when its anchor has both
coordinates in [-3, 0]. -/
lemma origin_mem_cells2_iff (o : Pt2) :
    (0, 0) ∈ obstacle_cells2 o ↔ (-3 ≤ o.1 ∧ o.1 ≤ 0 ∧ -3 ≤ o.2 ∧ o.2 ≤ 0) := by
  simp only [obstacle_cells2, List.mem_flatMap, List.mem_map, List.mem_range,
    Prod.mk.injEq]
  constructor
  · rintro ⟨j, hj, k, hk, e1, e2⟩
    omega
  · rintro ⟨h1, h2, h3, h4⟩
    exact ⟨(-o.1).toNat, by omega, (-o.2).toNat, by omega, by omega, by omega⟩

/-- A 4x4x4 obstacle covers the origin cell exactly when its anchor has all
three coordinates in [-3, 0]. -/
lemma origin_mem_cells3_iff (o : Pt3) :
    (0, 0, 0) ∈ obstacle_cells3 o ↔
      (-3 ≤ o.1 ∧ o.1 ≤ 0 ∧ -3 ≤ o.2.1 ∧ o.2.1 ≤ 0 ∧ -3 ≤ o.2.2 ∧ o.2.2 ≤ 0) := by
  simp only [obstacle_cells3, List.mem_flatMap, List.mem_map, List.mem_range,
    Prod.mk.injEq]
  constructor
  · rintro ⟨j, hj, k, hk, l, hl, e1, e2, e3⟩
    omega
  · rintro ⟨h1, h2, h3, h4, h5, h6⟩
    exact ⟨(-o.1).toNat, by omega, (-o.2.1).toNat, by omega, (-o.2.2).toNat, by omega,
      by omega, by omega, by omega⟩

/-- The occupied-cell set of accepted anchors never contains the origin. -/
lemma origin_not_in_obs_points2 (origins : List Pt2)
    (hacc : ∀ o ∈ origins, ¬ ((0 ≥ o.1 ∧ o.1 ≥ -4) ∧ (0 ≥ o.2 ∧ o.2 ≥ -4))) :
    (0, 0) ∉ obs_points2 origins := by
  intro hmem
  rw [obs_points2, List.mem_flatMap] at hmem
  obtain ⟨o, ho, hcell⟩ := hmem
  have := origin_mem_cells2_iff o |>.mp hcell
  exact hacc o ho ⟨⟨by omega, by omega⟩, by omega, by omega⟩

/-- The 3D occupied-cell set of accepted anchors never contains the origin. -/
lemma origin_not_in_obs_points3 (origins : List Pt3)
    (hacc : ∀ o ∈ origins,
      ¬ ((0 ≥ o.1 ∧ o.1 ≥ -4) ∧ (0 ≥ o.2.1 ∧ o.2.1 ≥ -4) ∧ (0 ≥ o.2.2 ∧ o.2.2 ≥ -4))) :
    (0, 0, 0) ∉ obs_points3 origins := by
  intro hmem
  rw [obs_points3, List.mem_flatMap] at hmem
  obtain ⟨o, ho, hcell⟩ := hmem
  have := origin_mem_cells3_iff o |>.mp hcell
  exact hacc o ho ⟨⟨by omega, by omega⟩, ⟨by omega, by omega⟩, by omega, by omega⟩

/-- If the legality filter leaves no candidate at the current state, the
search signals a dead end, whatever the shuffler does. -/
lemma avoid_walk2_dead_end {S : Type} (shuffle : S → List Pt2 → List Pt2 × S)
    (hsh : ∀ s l, ∀ x ∈ (shuffle s l).1, x ∈ l)
    (edges obs steps : List Pt2) (i : ℕ) (s : S)
    (hi : i ≠ steps.length)
    (hfil : (options2.map
        (fun j => ((steps.getD i (0,0)).1 + j.1, (steps.getD i (0,0)).2 + j.2))).filter
        (fun t => !(decide (t ∈ steps)) && !(decide (t ∈ edges)) && !(decide (t ∈ obs)))
      = []) :
    ∀ fuel, (avoid_walk2 shuffle edges obs fuel steps i s).1 = none := by
  intro fuel
  have hps : (possible_steps2 shuffle edges obs steps i s).1 = [] := by
    unfold possible_steps2
    dsimp only
    rw [hfil]
    exact List.eq_nil_iff_forall_not_mem.mpr
      (fun a ha => (List.not_mem_nil a) (hsh s [] a ha))
  cases fuel with
  | zero =>
    rw [avoid_walk2, if_neg hi]
  | succ f =>
    rw [avoid_walk2, if_neg hi]
    dsimp only
    rw [hps]
    rfl

/-- The 3D analogue: empty filtered candidate set means dead end. -/
lemma avoid_walk3_dead_end {S : Type} (shuffle : S → List Pt3 → List Pt3 × S)
    (hsh : ∀ s l, ∀ x ∈ (shuffle s l).1, x ∈ l)
    (mx : ℤ) (obs steps : List Pt3) (i : ℕ) (s : S)
    (hi : i ≠ steps.length)
    (hfil : (options3.map
        (fun j => ((steps.getD i (0,0,0)).1 + j.1, (steps.getD i (0,0,0)).2.1 + j.2.1,
          (steps.getD i (0,0,0)).2.2 + j.2.2))).filter
        (fun t => !(decide (t ∈ steps)) &&
          (decide (|t.1| < mx) && decide (|t.2.1| < mx) && decide (|t.2.2| < mx)) &&
          !(decide (t ∈ obs)))
      = []) :
    ∀ fuel, (avoid_walk3 shuffle mx obs fuel steps i s).1 = none := by
  intro fuel
  have hps : (possible_steps3 shuffle mx obs steps i s).1 = [] := by
    unfold possible_steps3
    dsimp only
    rw [hfil]
    exact List.eq_nil_iff_forall_not_mem.mpr
      (fun a ha => (List.not_mem_nil a) (hsh s [] a ha))
  cases fuel with
  | zero =>
    rw [avoid_walk3, if_neg hi]
  | succ f =>
    rw [avoid_walk3, if_neg hi]
    dsimp only
    rw [hps]
    rfl

/-- With a bound of 1 every neighbour of the origin lies on the border
ring, so the very first decision of the 2D search has no candidate. -/
lemma scenario2_bound_one {S : Type} (shuffle : S → List Pt2 → List Pt2 × S)
    (hsh : ∀ s l, ∀ x ∈ (shuffle s l).1, x ∈ l) (obs : List Pt2) (s : S) :
    (searchWalk2 shuffle (borderPts 1) obs 50 s).1 = none := by
  unfold searchWalk2
  apply avoid_walk2_dead_end shuffle hsh (borderPts 1) obs _ 1 s (by simp)
  rw [List.filter_eq_nil_iff]
  intro a ha
  fin_cases ha <;>
    · intro hpred
      rw [Bool.and_eq_true, Bool.and_eq_true] at hpred
      have hb := hpred.1.2
      rw [Bool.not_eq_true', decide_eq_false_iff_not] at hb
      exact hb (by decide)

/-- The same for the 3D search: no neighbour of the origin satisfies the
strict bound abs(coordinate) < 1. -/
lemma scenario3_bound_one {S : Type} (shuffle : S → List Pt3 → List Pt3 × S)
    (hsh : ∀ s l, ∀ x ∈ (shuffle s l).1, x ∈ l) (obs : List Pt3) (s : S) :
    (searchWalk3 shuffle 1 obs 50 s).1 = none := by
  unfold searchWalk3
  apply avoid_walk3_dead_end shuffle hsh 1 obs _ 1 s (by simp)
  rw [List.filter_eq_nil_iff]
  intro a ha
  fin_cases ha <;>
    · intro hpred
      rw [Bool.and_eq_true, Bool.and_eq_true] at hpred
      have hb := hpred.1.2
      rw [Bool.and_eq_true, Bool.and_eq_true] at hb
      obtain ⟨⟨hb1, hb2⟩, hb3⟩ := hb
      rw [decide_eq_true_eq] at hb1 hb2 hb3
      revert hb1 hb2 hb3
      decide

/-- With a bound below 2, randint(-H, H-4) has an empty range: the first
sampling call fails with ValueError. -/
lemma placement2_empty_range {S : Type} (randint : S → ℤ → ℤ → Option (ℤ × S))
    (hre : ∀ s lo hi, hi < lo → randint s lo hi = none)
    (limit : ℤ) (hlim : limit < 2) :
    ∀ fuel, 1 ≤ fuel → ∀ s, random_obstacle_placement2 randint limit fuel s
      = .error .valueError := by
  intro fuel hf s
  cases fuel with
  | zero => exact absurd hf (by omega)
  | succ f =>
    rw [random_obstacle_placement2]
    rw [hre s (-limit) (limit - 4) (by omega)]

lemma placement3_empty_range {S : Type} (randint : S → ℤ → ℤ → Option (ℤ × S))
    (hre : ∀ s lo hi, hi < lo → randint s lo hi = none)
    (limit : ℤ) (hlim : limit < 2) :
    ∀ fuel, 1 ≤ fuel → ∀ s, random_obstacle_placement3 randint limit fuel s
      = .error .valueError := by
  intro fuel hf s
  cases fuel with
  | zero => exact absurd hf (by omega)
  | succ f =>
    rw [random_obstacle_placement3]
    rw [hre s (-limit) (limit - 4) (by omega)]

lemma generate2_empty_range {S : Type} (randint : S → ℤ → ℤ → Option (ℤ × S))
    (hre : ∀ s lo hi, hi < lo → randint s lo hi = none)
    (limit : ℤ) (hlim : limit < 2) (pfuel : ℕ) (hpf : 1 ≤ pfuel) :
    ∀ count, 1 ≤ count → ∀ s, generate_obstacles2 randint limit pfuel count s
      = .error .valueError := by
  intro count hc s
  cases count with
  | zero => exact absurd hc (by omega)
  | succ k =>
    rw [generate_obstacles2]
    rw [placement2_empty_range randint hre limit hlim pfuel hpf s]

lemma generate3_empty_range {S : Type} (randint : S → ℤ → ℤ → Option (ℤ × S))
    (hre : ∀ s lo hi, hi < lo → randint s lo hi = none)
    (limit : ℤ) (hlim : limit < 2) (pfuel : ℕ) (hpf : 1 ≤ pfuel) :
    ∀ count, 1 ≤ count → ∀ s, generate_obstacles3 randint limit pfuel count s
      = .error .valueError := by
  intro count hc s
  cases count with
  | zero => exact absurd hc (by omega)
  | succ k =>
    rw [generate_obstacles3]
    rw [placement3_empty_range randint hre limit hlim pfuel hpf s]

/-! ## Claim theorems -/

lemma border_h_pos (n : ℕ) (hn : 1 ≤ n) : 1 ≤ border_h n := by
  obtain ⟨hk1, _, _⟩ := roundSqrt_char n hn
  unfold border_h
  apply pyRound_pos_of _ 8 (by norm_num)
  have hk : (1:ℤ) ≤ (roundSqrt n : ℤ) := by exact_mod_cast hk1
  linarith

lemma set_max_pos (n : ℕ) (hn : 1 ≤ n) : 1 ≤ set_max n := by
  obtain ⟨hm1, _, _⟩ := roundCbrt_char n hn
  unfold set_max
  apply pyRound_pos_of _ 8 (by norm_num)
  have hm : (1:ℤ) ≤ (roundCbrt n : ℤ) := by exact_mod_cast hm1
  linarith

/-- C1: for every walk returned by the search (2D avoid_walk in main.py and
3D avoid_walk in 3d.py), all points are pairwise distinct: no lattice point
appears at two different indices, even though unvisited buffer slots are
zero-initialised and index i+1 is pre-seeded with a placeholder copy of
point i before each recursive call. -/
theorem C1_walks_self_avoiding {S : Type}
    (shuffle2 : S → List Pt2 → List Pt2 × S) (shuffle3 : S → List Pt3 → List Pt3 × S)
    (hsh2 : ∀ s l, ∀ x ∈ (shuffle2 s l).1, x ∈ l)
    (hsh3 : ∀ s l, ∀ x ∈ (shuffle3 s l).1, x ∈ l)
    (edges obs2 : List Pt2) (mx : ℤ) (obs3 : List Pt3) (n2 n3 : ℕ)
    (hn2 : 1 ≤ n2) (hn3 : 1 ≤ n3) (s2 s3 : S)
    (w2 : List Pt2) (r2 : S) (h2 : searchWalk2 shuffle2 edges obs2 n2 s2 = (some w2, r2))
    (w3 : List Pt3) (r3 : S) (h3 : searchWalk3 shuffle3 mx obs3 n3 s3 = (some w3, r3)) :
    (∀ j k, j < k → k < w2.length → w2.getD j (0, 0) ≠ w2.getD k (0, 0)) ∧
    (∀ j k, j < k → k < w3.length → w3.getD j (0, 0, 0) ≠ w3.getD k (0, 0, 0)) := by
  obtain ⟨hl2, hi2⟩ := searchWalk2_sound shuffle2 hsh2 edges obs2 n2 hn2 s2 w2 r2 h2
  obtain ⟨hl3, hi3⟩ := searchWalk3_sound shuffle3 hsh3 mx obs3 n3 hn3 s3 w3 r3 h3
  exact ⟨hi2.2.2.2.2.2.1, hi3.2.2.2.2.2.1⟩

/-- Witness for C1 at a concrete run: bound 2, no obstacles, 2 steps, the
identity shuffler. -/
theorem C1_walks_self_avoiding_witness :
    (searchWalk2 (S := Unit) idShuffle (borderPts 2) [] 2 ()
      = (some [((0:ℤ), (0:ℤ)), (0, 1)], ())) ∧
    (searchWalk3 (S := Unit) idShuffle 2 [] 2 ()
      = (some [((0:ℤ), (0:ℤ), (0:ℤ)), (0, 0, 1)], ())) ∧
    ([((0:ℤ), (0:ℤ)), (0, 1)].getD 0 (0, 0) ≠ [((0:ℤ), (0:ℤ)), (0, 1)].getD 1 (0, 0)) ∧
    ([((0:ℤ), (0:ℤ), (0:ℤ)), (0, 0, 1)].getD 0 (0, 0, 0)
      ≠ [((0:ℤ), (0:ℤ), (0:ℤ)), (0, 0, 1)].getD 1 (0, 0, 0)) := by
  have hC := C1_walks_self_avoiding (S := Unit) idShuffle idShuffle
    (fun s l x hx => hx) (fun s l x hx => hx)
    (borderPts 2) [] 2 [] 2 2 (by decide) (by decide) () ()
    [((0:ℤ), (0:ℤ)), (0, 1)] () (by decide)
    [((0:ℤ), (0:ℤ), (0:ℤ)), (0, 0, 1)] () (by decide)
  exact ⟨by decide, by decide, hC.1 0 1 (by decide) (by decide), hC.2 0 1 (by decide) (by decide)⟩

/-- C4: every returned walk has exactly the requested number of points,
starts at the all-zero origin, and consecutive points differ by exactly one
unit along exactly one axis, in both variants. -/
theorem C4_walk_length_origin_unit_steps {S : Type}
    (shuffle2 : S → List Pt2 → List Pt2 × S) (shuffle3 : S → List Pt3 → List Pt3 × S)
    (hsh2 : ∀ s l, ∀ x ∈ (shuffle2 s l).1, x ∈ l)
    (hsh3 : ∀ s l, ∀ x ∈ (shuffle3 s l).1, x ∈ l)
    (edges obs2 : List Pt2) (mx : ℤ) (obs3 : List Pt3) (n2 n3 : ℕ)
    (hn2 : 1 ≤ n2) (hn3 : 1 ≤ n3) (s2 s3 : S)
    (w2 : List Pt2) (r2 : S) (h2 : searchWalk2 shuffle2 edges obs2 n2 s2 = (some w2, r2))
    (w3 : List Pt3) (r3 : S) (h3 : searchWalk3 shuffle3 mx obs3 n3 s3 = (some w3, r3)) :
    (w2.length = n2 ∧ w2.getD 0 (0, 0) = (0, 0) ∧
      ∀ j, j + 1 < w2.length →
        |(w2.getD (j+1) (0, 0)).1 - (w2.getD j (0, 0)).1| +
          |(w2.getD (j+1) (0, 0)).2 - (w2.getD j (0, 0)).2| = 1) ∧
    (w3.length = n3 ∧ w3.getD 0 (0, 0, 0) = (0, 0, 0) ∧
      ∀ j, j + 1 < w3.length →
        |(w3.getD (j+1) (0, 0, 0)).1 - (w3.getD j (0, 0, 0)).1| +
          |(w3.getD (j+1) (0, 0, 0)).2.1 - (w3.getD j (0, 0, 0)).2.1| +
          |(w3.getD (j+1) (0, 0, 0)).2.2 - (w3.getD j (0, 0, 0)).2.2| = 1) := by
  obtain ⟨hl2, hi2⟩ := searchWalk2_sound shuffle2 hsh2 edges obs2 n2 hn2 s2 w2 r2 h2
  obtain ⟨hl3, hi3⟩ := searchWalk3_sound shuffle3 hsh3 mx obs3 n3 hn3 s3 w3 r3 h3
  refine ⟨⟨hl2, hi2.2.2.1, ?_⟩, ⟨hl3, hi3.2.2.1, ?_⟩⟩
  · intro j hj
    exact step2_abs _ _ (hi2.2.2.2.2.1 j hj)
  · intro j hj
    exact step3_abs _ _ (hi3.2.2.2.2.1 j hj)

/-- Witness for C4 at the same concrete runs. -/
theorem C4_walk_length_origin_unit_steps_witness :
    (searchWalk2 (S := Unit) idShuffle (borderPts 2) [] 2 ()
      = (some [((0:ℤ), (0:ℤ)), (0, 1)], ())) ∧
    ([((0:ℤ), (0:ℤ)), (0, 1)].length = 2) ∧
    ([((0:ℤ), (0:ℤ), (0:ℤ)), (0, 0, 1)].length = 2) ∧
    ([((0:ℤ), (0:ℤ)), (0, 1)].getD 0 (0, 0) = (0, 0)) := by
  have hC := C4_walk_length_origin_unit_steps (S := Unit) idShuffle idShuffle
    (fun s l x hx => hx) (fun s l x hx => hx)
    (borderPts 2) [] 2 [] 2 2 (by decide) (by decide) () ()
    [((0:ℤ), (0:ℤ)), (0, 1)] () (by decide)
    [((0:ℤ), (0:ℤ), (0:ℤ)), (0, 0, 1)] () (by decide)
  exact ⟨by decide, hC.1.1, hC.2.1, hC.1.2.1⟩

/-- C2: every point of a returned walk satisfies abs(coordinate) < H on
every axis: in 3D directly by the strict comparison of possible_steps, in
2D by border-list non-membership combined with the fact that a walk from
the origin by unit steps cannot cross the border ring without landing on
it; the computed half-widths are at least 1 for every positive step
count. -/
theorem C2_walk_strictly_inside_bounds {S : Type}
    (shuffle2 : S → List Pt2 → List Pt2 × S) (shuffle3 : S → List Pt3 → List Pt3 × S)
    (hsh2 : ∀ s l, ∀ x ∈ (shuffle2 s l).1, x ∈ l)
    (hsh3 : ∀ s l, ∀ x ∈ (shuffle3 s l).1, x ∈ l)
    (h : ℤ) (hh : 1 ≤ h) (obs2 : List Pt2) (n2 : ℕ) (hn2 : 1 ≤ n2) (s2 : S)
    (w2 : List Pt2) (r2 : S)
    (h2 : searchWalk2 shuffle2 (borderPts h) obs2 n2 s2 = (some w2, r2))
    (mx : ℤ) (hmx : 1 ≤ mx) (obs3 : List Pt3) (n3 : ℕ) (hn3 : 1 ≤ n3) (s3 : S)
    (w3 : List Pt3) (r3 : S)
    (h3 : searchWalk3 shuffle3 mx obs3 n3 s3 = (some w3, r3)) :
    (∀ j, j < w2.length → |(w2.getD j (0, 0)).1| < h ∧ |(w2.getD j (0, 0)).2| < h) ∧
    (∀ j, j < w3.length → |(w3.getD j (0, 0, 0)).1| < mx ∧
      |(w3.getD j (0, 0, 0)).2.1| < mx ∧ |(w3.getD j (0, 0, 0)).2.2| < mx) ∧
    (∀ n0, 1 ≤ n0 → 1 ≤ border_h n0 ∧ 1 ≤ set_max n0) := by
  obtain ⟨hl2, hi2⟩ := searchWalk2_sound shuffle2 hsh2 (borderPts h) obs2 n2 hn2 s2 w2 r2 h2
  obtain ⟨hl3, hi3⟩ := searchWalk3_sound shuffle3 hsh3 mx obs3 n3 hn3 s3 w3 r3 h3
  refine ⟨walk2_inside h hh obs2 w2 hi2, ?_, ?_⟩
  · intro j hj
    rcases Nat.eq_zero_or_pos j with rfl | hj1
    · rw [hi3.2.2.1]
      refine ⟨?_, ?_, ?_⟩ <;> · simp; omega
    · exact (hi3.2.2.2.2.2.2 j hj1 hj).1
  · intro n0 hn0
    exact ⟨border_h_pos n0 hn0, set_max_pos n0 hn0⟩

/-- Witness for C2 at the concrete runs with bound 2. -/
theorem C2_walk_strictly_inside_bounds_witness :
    (|([((0:ℤ), (0:ℤ)), (0, 1)].getD 1 (0, 0)).1| < 2 ∧
      |([((0:ℤ), (0:ℤ)), (0, 1)].getD 1 (0, 0)).2| < 2) ∧
    (|([((0:ℤ), (0:ℤ), (0:ℤ)), (0, 0, 1)].getD 1 (0, 0, 0)).1| < 2 ∧
      |([((0:ℤ), (0:ℤ), (0:ℤ)), (0, 0, 1)].getD 1 (0, 0, 0)).2.1| < 2 ∧
      |([((0:ℤ), (0:ℤ), (0:ℤ)), (0, 0, 1)].getD 1 (0, 0, 0)).2.2| < 2) ∧
    (1 ≤ border_h 225 ∧ 1 ≤ set_max 225) := by
  have hC := C2_walk_strictly_inside_bounds (S := Unit) idShuffle idShuffle
    (fun s l x hx => hx) (fun s l x hx => hx)
    2 (by norm_num) [] 2 (by decide) ()
    [((0:ℤ), (0:ℤ)), (0, 1)] () (by decide)
    2 (by norm_num) [] 2 (by decide) ()
    [((0:ℤ), (0:ℤ), (0:ℤ)), (0, 0, 1)] () (by decide)
  exact ⟨hC.1 1 (by decide), hC.2.1 1 (by decide), hC.2.2 225 (by decide)⟩

/-- C3: for every walk returned by the search, no point of the walk lies in
the obstacle occupied-cell set materialised (from accepted anchors) before
the search began. -/
theorem C3_walk_avoids_obstacle_cells {S : Type}
    (shuffle2 : S → List Pt2 → List Pt2 × S) (shuffle3 : S → List Pt3 → List Pt3 × S)
    (hsh2 : ∀ s l, ∀ x ∈ (shuffle2 s l).1, x ∈ l)
    (hsh3 : ∀ s l, ∀ x ∈ (shuffle3 s l).1, x ∈ l)
    (randint2 randint3 : S → ℤ → ℤ → Option (ℤ × S))
    (lim2 lim3 : ℤ) (pf2 pf3 k2 k3 : ℕ)
    (g2 : S) (os2 : List Pt2) (g2f : S)
    (hgen2 : generate_obstacles2 randint2 lim2 pf2 k2 g2 = .ok (os2, g2f))
    (edges : List Pt2) (n2 : ℕ) (hn2 : 1 ≤ n2) (s2 : S) (w2 : List Pt2) (r2 : S)
    (h2 : searchWalk2 shuffle2 edges (obs_points2 os2) n2 s2 = (some w2, r2))
    (g3 : S) (os3 : List Pt3) (g3f : S)
    (hgen3 : generate_obstacles3 randint3 lim3 pf3 k3 g3 = .ok (os3, g3f))
    (mx : ℤ) (n3 : ℕ) (hn3 : 1 ≤ n3) (s3 : S) (w3 : List Pt3) (r3 : S)
    (h3 : searchWalk3 shuffle3 mx (obs_points3 os3) n3 s3 = (some w3, r3)) :
    (∀ j, j < w2.length → w2.getD j (0, 0) ∉ obs_points2 os2) ∧
    (∀ j, j < w3.length → w3.getD j (0, 0, 0) ∉ obs_points3 os3) := by
  obtain ⟨hl2, hi2⟩ := searchWalk2_sound shuffle2 hsh2 edges (obs_points2 os2) n2 hn2 s2 w2 r2 h2
  obtain ⟨hl3, hi3⟩ := searchWalk3_sound shuffle3 hsh3 mx (obs_points3 os3) n3 hn3 s3 w3 r3 h3
  constructor
  · intro j hj
    rcases Nat.eq_zero_or_pos j with rfl | hj1
    · rw [hi2.2.2.1]
      exact origin_not_in_obs_points2 os2
        (generate2_accepted randint2 lim2 pf2 k2 g2 os2 g2f hgen2)
    · exact (hi2.2.2.2.2.2.2 j hj1 hj).2
  · intro j hj
    rcases Nat.eq_zero_or_pos j with rfl | hj1
    · rw [hi3.2.2.1]
      exact origin_not_in_obs_points3 os3
        (generate3_accepted randint3 lim3 pf3 k3 g3 os3 g3f hgen3)
    · exact (hi3.2.2.2.2.2.2 j hj1 hj).2

/-- Witness for C3: one obstacle anchored at (-5, -5) (resp. (-5, -5, -5)),
bound 5, a 2-step search. -/
theorem C3_walk_avoids_obstacle_cells_witness :
    (generate_obstacles2 (S := Unit) loRandint 5 1 1 () = .ok ([((-5:ℤ), (-5:ℤ))], ())) ∧
    (searchWalk2 (S := Unit) idShuffle (borderPts 5) (obs_points2 [((-5:ℤ), (-5:ℤ))]) 2 ()
      = (some [((0:ℤ), (0:ℤ)), (0, 1)], ())) ∧
    ([((0:ℤ), (0:ℤ)), (0, 1)].getD 1 (0, 0) ∉ obs_points2 [((-5:ℤ), (-5:ℤ))]) ∧
    ([((0:ℤ), (0:ℤ), (0:ℤ)), (0, 0, 1)].getD 1 (0, 0, 0)
      ∉ obs_points3 [((-5:ℤ), (-5:ℤ), (-5:ℤ))]) := by
  have hC := C3_walk_avoids_obstacle_cells (S := Unit) idShuffle idShuffle
    (fun s l x hx => hx) (fun s l x hx => hx) loRandint loRandint
    5 5 1 1 1 1 () [((-5:ℤ), (-5:ℤ))] () (by rfl)
    (borderPts 5) 2 (by decide) () [((0:ℤ), (0:ℤ)), (0, 1)] () (by decide)
    () [((-5:ℤ), (-5:ℤ), (-5:ℤ))] () (by rfl)
    5 2 (by decide) () [((0:ℤ), (0:ℤ), (0:ℤ)), (0, 0, 1)] () (by decide)
  exact ⟨by rfl, by decide, hC.1 1 (by decide), hC.2 1 (by decide)⟩

/-- C5: the search always terminates with either a complete self-avoiding
walk of the requested length or the dead-end signal with no accompanying
walk; in the degenerate bound-1 region with 50 requested steps it fails.
Termination itself is structural in the model: the source recursion depth
is exactly n - i, which the fuel argument reproduces. -/
theorem C5_search_complete_or_dead_end {S : Type}
    (shuffle2 : S → List Pt2 → List Pt2 × S) (shuffle3 : S → List Pt3 → List Pt3 × S)
    (hsh2 : ∀ s l, ∀ x ∈ (shuffle2 s l).1, x ∈ l)
    (hsh3 : ∀ s l, ∀ x ∈ (shuffle3 s l).1, x ∈ l)
    (edges obs2 : List Pt2) (n2 : ℕ) (hn2 : 1 ≤ n2) (s2 : S)
    (mx : ℤ) (obs3 : List Pt3) (n3 : ℕ) (hn3 : 1 ≤ n3) (s3 : S)
    (obsA : List Pt2) (sA : S) (obsB : List Pt3) (sB : S) :
    ((searchWalk2 shuffle2 edges obs2 n2 s2).1 = none ∨
      ∃ w, (searchWalk2 shuffle2 edges obs2 n2 s2).1 = some w ∧ w.length = n2 ∧
        w.getD 0 (0, 0) = (0, 0) ∧
        (∀ j k, j < k → k < w.length → w.getD j (0, 0) ≠ w.getD k (0, 0)) ∧
        (∀ j, j + 1 < w.length → Step2 (w.getD j (0, 0)) (w.getD (j+1) (0, 0)))) ∧
    ((searchWalk3 shuffle3 mx obs3 n3 s3).1 = none ∨
      ∃ w, (searchWalk3 shuffle3 mx obs3 n3 s3).1 = some w ∧ w.length = n3 ∧
        w.getD 0 (0, 0, 0) = (0, 0, 0) ∧
        (∀ j k, j < k → k < w.length → w.getD j (0, 0, 0) ≠ w.getD k (0, 0, 0)) ∧
        (∀ j, j + 1 < w.length → Step3 (w.getD j (0, 0, 0)) (w.getD (j+1) (0, 0, 0)))) ∧
    ((searchWalk2 shuffle2 (borderPts 1) obsA 50 sA).1 = none) ∧
    ((searchWalk3 shuffle3 1 obsB 50 sB).1 = none) := by
  refine ⟨?_, ?_, scenario2_bound_one shuffle2 hsh2 obsA sA,
    scenario3_bound_one shuffle3 hsh3 obsB sB⟩
  · rcases hr : (searchWalk2 shuffle2 edges obs2 n2 s2).1 with _ | w
    · exact Or.inl rfl
    · right
      have heq : searchWalk2 shuffle2 edges obs2 n2 s2
          = (some w, (searchWalk2 shuffle2 edges obs2 n2 s2).2) := Prod.ext hr rfl
      obtain ⟨hl, hi⟩ := searchWalk2_sound shuffle2 hsh2 edges obs2 n2 hn2 s2 w _ heq
      exact ⟨w, rfl, hl, hi.2.2.1, hi.2.2.2.2.2.1, hi.2.2.2.2.1⟩
  · rcases hr : (searchWalk3 shuffle3 mx obs3 n3 s3).1 with _ | w
    · exact Or.inl rfl
    · right
      have heq : searchWalk3 shuffle3 mx obs3 n3 s3
          = (some w, (searchWalk3 shuffle3 mx obs3 n3 s3).2) := Prod.ext hr rfl
      obtain ⟨hl, hi⟩ := searchWalk3_sound shuffle3 hsh3 mx obs3 n3 hn3 s3 w _ heq
      exact ⟨w, rfl, hl, hi.2.2.1, hi.2.2.2.2.2.1, hi.2.2.2.2.1⟩

/-- Witness for C5, including the degenerate bound-1 scenario with 50
steps in both variants. -/
theorem C5_search_complete_or_dead_end_witness :
    ((searchWalk2 (S := Unit) idShuffle (borderPts 1) [] 50 ()).1 = none) ∧
    ((searchWalk3 (S := Unit) idShuffle 1 [] 50 ()).1 = none) := by
  have hC := C5_search_complete_or_dead_end (S := Unit) idShuffle idShuffle
    (fun s l x hx => hx) (fun s l x hx => hx)
    (borderPts 2) [] 2 (by decide) () 2 [] 2 (by decide) () [] () [] ()
  exact ⟨hC.2.2.1, hC.2.2.2⟩

/-- C6: no accepted placement anchor has every coordinate in [-4, 0], and
the materialised occupied-cell set never contains the origin: an obstacle
covers the origin only if every anchor coordinate lies in [-3, 0], a
subset of the rejected range. -/
theorem C6_obstacles_never_cover_origin {S : Type}
    (randint2 randint3 : S → ℤ → ℤ → Option (ℤ × S))
    (lim2 lim3 : ℤ) (pf2 pf3 k2 k3 : ℕ)
    (g2 : S) (os2 : List Pt2) (g2f : S)
    (hgen2 : generate_obstacles2 randint2 lim2 pf2 k2 g2 = .ok (os2, g2f))
    (g3 : S) (os3 : List Pt3) (g3f : S)
    (hgen3 : generate_obstacles3 randint3 lim3 pf3 k3 g3 = .ok (os3, g3f)) :
    (∀ o ∈ os2, ¬ ((0 ≥ o.1 ∧ o.1 ≥ -4) ∧ (0 ≥ o.2 ∧ o.2 ≥ -4))) ∧
    ((0, 0) ∉ obs_points2 os2) ∧
    (∀ o ∈ os3,
      ¬ ((0 ≥ o.1 ∧ o.1 ≥ -4) ∧ (0 ≥ o.2.1 ∧ o.2.1 ≥ -4) ∧ (0 ≥ o.2.2 ∧ o.2.2 ≥ -4))) ∧
    ((0, 0, 0) ∉ obs_points3 os3) ∧
    (∀ o : Pt2, (0, 0) ∈ obstacle_cells2 o → -3 ≤ o.1 ∧ o.1 ≤ 0 ∧ -3 ≤ o.2 ∧ o.2 ≤ 0) ∧
    (∀ o : Pt3, (0, 0, 0) ∈ obstacle_cells3 o →
      -3 ≤ o.1 ∧ o.1 ≤ 0 ∧ -3 ≤ o.2.1 ∧ o.2.1 ≤ 0 ∧ -3 ≤ o.2.2 ∧ o.2.2 ≤ 0) := by
  have ha2 := generate2_accepted randint2 lim2 pf2 k2 g2 os2 g2f hgen2
  have ha3 := generate3_accepted randint3 lim3 pf3 k3 g3 os3 g3f hgen3
  exact ⟨ha2, origin_not_in_obs_points2 os2 ha2, ha3, origin_not_in_obs_points3 os3 ha3,
    fun o ho => (origin_mem_cells2_iff o).mp ho,
    fun o ho => (origin_mem_cells3_iff o).mp ho⟩

/-- Witness for C6 at concrete one-obstacle generations. -/
theorem C6_obstacles_never_cover_origin_witness :
    (generate_obstacles2 (S := Unit) loRandint 5 1 1 () = .ok ([((-5:ℤ), (-5:ℤ))], ())) ∧
    (generate_obstacles3 (S := Unit) loRandint 5 1 1 ()
      = .ok ([((-5:ℤ), (-5:ℤ), (-5:ℤ))], ())) ∧
    ((0, 0) ∉ obs_points2 [((-5:ℤ), (-5:ℤ))]) ∧
    ((0, 0, 0) ∉ obs_points3 [((-5:ℤ), (-5:ℤ), (-5:ℤ))]) := by
  have hC := C6_obstacles_never_cover_origin (S := Unit) loRandint loRandint
    5 5 1 1 1 1 () [((-5:ℤ), (-5:ℤ))] () (by rfl)
    () [((-5:ℤ), (-5:ℤ), (-5:ℤ))] () (by rfl)
  exact ⟨by rfl, by rfl, hC.2.1, hC.2.2.2.1⟩

/-- Counterexample to C7: at step count 30 the code computes half-width 4
(round the square root first: round(sqrt 30) = 5, round(5 * 1.75 / 2) = 4),
while the formula stated in the spec (round the product first:
L = round(sqrt 30 * 1.75) = 10, H = round(L / 2) = 5) gives 5. -/
theorem C7_spec_formula_counterexample :
    border_h 30 = 4 ∧ specHalfWidth2 30 = 5 ∧ border_h 30 ≠ specHalfWidth2 30 := by
  refine ⟨by decide, by decide, by decide⟩

/-- C7 amended: the computed half-width follows the order of
operations, which rounds the root before scaling: for k the nearest
integer to sqrt(n1) and m the nearest integer to cbrt(n2) (characterised
by the squared and cubed half-integer brackets), the 2D half-width is
round(7k/8) and the 3D half-width is round(7m/8) under Python
round-half-to-even; this differs from the formula stated in the spec,
round(round(root * 1.75) / 2) at some inputs, e.g. n = 30 in 2D. -/
theorem C7_halfwidth_rounds_root_first (n1 k n2 m : ℕ)
    (hk1 : 1 ≤ k) (hk2 : (2*k-1)^2 ≤ 4*n1) (hk3 : 4*n1 < (2*k+1)^2)
    (hm1 : 1 ≤ m) (hm2 : (2*m-1)^3 ≤ 8*n2) (hm3 : 8*n2 < (2*m+1)^3) :
    border_h n1 = pyRound (7 * (k:ℤ)) 8 ∧ set_max n2 = pyRound (7 * (m:ℤ)) 8 := by
  rw [border_h, set_max, roundSqrt_eq_of_char n1 k hk1 hk2 hk3,
    roundCbrt_eq_of_char n2 m hm1 hm2 hm3]
  exact ⟨rfl, rfl⟩

/-- Witness for the amended C7 at n = 225 (k = 15, m = 6). -/
theorem C7_halfwidth_rounds_root_first_witness :
    (1 ≤ 15 ∧ (2*15-1)^2 ≤ 4*225 ∧ 4*225 < (2*15+1)^2) ∧
    (1 ≤ 6 ∧ (2*6-1)^3 ≤ 8*225 ∧ 8*225 < (2*6+1)^3) ∧
    border_h 225 = pyRound (7 * 15) 8 ∧ set_max 225 = pyRound (7 * 6) 8 := by
  have hC := C7_halfwidth_rounds_root_first 225 15 225 6
    (by decide) (by decide) (by decide) (by decide) (by decide) (by decide)
  exact ⟨⟨by decide, by decide, by decide⟩, ⟨by decide, by decide, by decide⟩, hC.1, hC.2⟩

/-- C8: at step count 225 the computed half-width is exactly 13 in the 2D
variant and exactly 5 in the 3D variant. -/
theorem C8_halfwidth_at_225 : border_h 225 = 13 ∧ set_max 225 = 5 := by
  refine ⟨by decide, by decide⟩

/-- Counterexample to C9: constructing a RandomWalk of step count 1 does
not return an origin-only walk; the computed bound is 1, so the obstacle
placement samples randint(-1, -3), whose empty range raises ValueError
before the search is reached. -/
theorem C9_step_count_one_counterexample :
    rand_avoid2 (S := Unit) idShuffle loRandint 1 1 () = .error PErr.valueError := by
  rfl

/-- C9 amended: the search itself, handed a one-slot buffer at index 1,
returns the origin-only walk immediately (index-driven base case), but the
end-to-end construction at step count 1 fails inside obstacle placement
with ValueError, because the computed bound 1 makes the sampling range
empty. -/
theorem C9_step_count_one_amended {S : Type}
    (shuffle : S → List Pt2 → List Pt2 × S)
    (randint : S → ℤ → ℤ → Option (ℤ × S))
    (hre : ∀ s lo hi, hi < lo → randint s lo hi = none)
    (edges obs : List Pt2) (fuel : ℕ) (s : S) (pfuel : ℕ) (hpf : 1 ≤ pfuel) :
    avoid_walk2 shuffle edges obs fuel [(0, 0)] 1 s = (some [(0, 0)], s) ∧
    rand_avoid2 shuffle randint 1 pfuel s = .error PErr.valueError := by
  constructor
  · rw [avoid_walk2.eq_def]
    simp
  · have hb : border_h 1 = 1 := by decide
    have hgen := generate2_empty_range randint hre (border_h 1)
      (by rw [hb]; norm_num) pfuel hpf 3 (by norm_num) s
    unfold rand_avoid2
    rw [hgen]

/-- Witness for the amended C9. -/
theorem C9_step_count_one_amended_witness :
    (avoid_walk2 (S := Unit) idShuffle [] [] 0 [(0, 0)] 1 () = (some [(0, 0)], ())) ∧
    (rand_avoid2 (S := Unit) idShuffle loRandint 1 1 () = .error PErr.valueError) := by
  have hC := C9_step_count_one_amended (S := Unit) idShuffle loRandint
    (fun s lo hi h => by unfold loRandint; rw [if_neg (by omega)])
    [] [] 0 () 1 (by norm_num)
  exact ⟨hC.1, hC.2⟩

/-- C10: for every half-width below 2 and at least one requested obstacle,
placement fails with the empty-range error rather than returning obstacles
or looping; in particular the computed bound for step count 1 is 1 in both
variants, so such a run cannot place obstacles. -/
theorem C10_small_bound_placement_fails {S : Type}
    (randint : S → ℤ → ℤ → Option (ℤ × S))
    (hre : ∀ s lo hi, hi < lo → randint s lo hi = none)
    (limit : ℤ) (hlim : limit < 2) (fuel : ℕ) (hf : 1 ≤ fuel)
    (count : ℕ) (hc : 1 ≤ count) (s s' : S) :
    random_obstacle_placement2 randint limit fuel s = .error PErr.valueError ∧
    random_obstacle_placement3 randint limit fuel s' = .error PErr.valueError ∧
    generate_obstacles2 randint limit fuel count s = .error PErr.valueError ∧
    generate_obstacles3 randint limit fuel count s' = .error PErr.valueError ∧
    border_h 1 = 1 ∧ set_max 1 = 1 := by
  exact ⟨placement2_empty_range randint hre limit hlim fuel hf s,
    placement3_empty_range randint hre limit hlim fuel hf s',
    generate2_empty_range randint hre limit hlim fuel hf count hc s,
    generate3_empty_range randint hre limit hlim fuel hf count hc s',
    by decide, by decide⟩

/-- Witness for C10 with the concrete sampler at bound 1. -/
theorem C10_small_bound_placement_fails_witness :
    (random_obstacle_placement2 (S := Unit) loRandint 1 1 () = .error PErr.valueError) ∧
    (generate_obstacles2 (S := Unit) loRandint 1 1 1 () = .error PErr.valueError) ∧
    (random_obstacle_placement3 (S := Unit) loRandint 1 1 () = .error PErr.valueError) ∧
    (generate_obstacles3 (S := Unit) loRandint 1 1 1 () = .error PErr.valueError) := by
  have hC := C10_small_bound_placement_fails (S := Unit) loRandint
    (fun s lo hi h => by unfold loRandint; rw [if_neg (by omega)])
    1 (by norm_num) 1 (by norm_num) 1 (by norm_num) () ()
  exact ⟨hC.1, hC.2.2.1, hC.2.1, hC.2.2.2.1⟩
